import Mathlib

/-
Verification development for the analytics core of the NIFTY 50 quant
dashboard (app23.py).

The pandas/numpy code is shallowly embedded over the rationals:

* a pandas Series or DataFrame column is a `List (Option ℚ)`; `none`
  models a NaN entry (prices and rates arrive NaN-free, the loader has
  already dropped incomplete rows);
* `np.sqrt` is modelled by an explicit parameter `sq : ℚ → ℚ`, since
  square roots leave ℚ; theorems only ever assume properties that the
  real square root has (`sq 0 = 0`, `0 < sq 252`);
* the float power `x ** e` inside the CAGR formula is likewise a
  parameter `rpow : ℚ → ℚ → ℚ` (no claim depends on its value);
* scalar float results that the code can drive to NaN or ±inf (Sharpe,
  Sortino, volatility) live in the four-point extension `EF` of ℚ;
* a Python function that can raise returns a `PyResult`;
* the global numpy RNG is an explicit `RandomState` threaded through
  `monte_carlo`, and the normal sampler is a parameter
  `gauss : ℕ → ℕ → ℚ` mapping (seed, stream position) to a draw.

Rat arithmetic is made semireducible so that concrete tables evaluate
inside `decide`.
-/

unseal Rat.add Rat.mul Rat.sub Rat.inv

set_option maxHeartbeats 1000000

/-- Build a column of length `n` from a per-index formula. -/
def colOf {α : Type} (n : ℕ) (f : ℕ → α) : List α :=
  (List.range n).map f

/-- Arithmetic mean of a list of rationals (pandas `.mean()` on a
NaN-free series); Lean division by zero gives 0 for the empty list,
which no theorem relies on. -/
def meanQ (xs : List ℚ) : ℚ :=
  xs.sum / (xs.length : ℚ)

/-- Sample variance with one delta degree of freedom, the pandas
default for `.std()`/`.var()`.  Only meaningful for lists of length at
least two; `stdQ` guards the shorter cases. -/
def sampleVar (xs : List ℚ) : ℚ :=
  ((xs.map (fun x => (x - meanQ xs) * (x - meanQ xs))).sum) / ((xs.length : ℚ) - 1)

/-- Turn a window of optional entries into an optional window: `some`
exactly when no entry is NaN (pandas rolling windows propagate NaN). -/
def seqOpt : List (Option ℚ) → Option (List ℚ)
  | [] => some []
  | none :: _ => none
  | some x :: xs => (seqOpt xs).map (fun ys => x :: ys)

/-- `Series.pct_change()`: NaN at row 0, then `(x[i] - x[i-1]) / x[i-1]`.
The embedding assumes the previous value is nonzero (true of market
prices); pandas would produce ±inf there. -/
def pctChange (xs : List ℚ) : List (Option ℚ) :=
  colOf xs.length (fun i =>
    match i with
    | 0 => none
    | Nat.succ j => some ((xs.getD (j + 1) 0 - xs.getD j 0) / xs.getD j 0))

/-- `Series.rolling(w).agg(f)` with the default `min_periods = w`: the
entry at row `i` is defined exactly when the trailing `w` entries exist
and none is NaN. -/
def rollingApply (w : ℕ) (f : List ℚ → ℚ) (xs : List (Option ℚ)) : List (Option ℚ) :=
  colOf xs.length (fun i =>
    if w ≤ i + 1 then (seqOpt ((xs.take (i + 1)).drop (i + 1 - w))).map f
    else none)

/-- Elementwise scalar operation on a column (NaN-propagating). -/
def omapC (f : ℚ → ℚ) (xs : List (Option ℚ)) : List (Option ℚ) :=
  xs.map (Option.map f)

/-- Elementwise binary operation on two aligned columns
(NaN-propagating, length = min of the lengths as for `zipWith`). -/
def omap2 (f : ℚ → ℚ → ℚ) (xs ys : List (Option ℚ)) : List (Option ℚ) :=
  colOf (min xs.length ys.length) (fun i =>
    match xs.getD i none, ys.getD i none with
    | some a, some b => some (f a b)
    | _, _ => none)

/-- Product of the non-NaN entries of a column. -/
def prodSomes : List (Option ℚ) → ℚ
  | [] => 1
  | none :: xs => prodSomes xs
  | some x :: xs => x * prodSomes xs

/-- Maximum of the non-NaN entries of a column, if any. -/
def maxSomes : List (Option ℚ) → Option ℚ
  | [] => none
  | none :: xs => maxSomes xs
  | some x :: xs =>
    some (match maxSomes xs with
          | none => x
          | some m => max x m)

/-- `Series.cumprod()` with the default `skipna=True`: NaN rows stay
NaN, every other row carries the product of all non-NaN entries up to
and including it. -/
def cumprodSkipna (xs : List (Option ℚ)) : List (Option ℚ) :=
  colOf xs.length (fun i =>
    (xs.getD i none).map (fun _ => prodSomes (xs.take (i + 1))))

/-- `Series.cummax()` with the default `skipna=True`. -/
def cummaxSkipna (xs : List (Option ℚ)) : List (Option ℚ) :=
  colOf xs.length (fun i =>
    (xs.getD i none).bind (fun _ => maxSomes (xs.take (i + 1))))

/-- One fully populated row of the table returned by
`calculate_returns` (after its final `df.dropna()` every column is
non-NaN). -/
structure DRow where
  Price : ℚ
  Rate : ℚ
  Returns : ℚ
  Rate_Change : ℚ
  Vol_21D : ℚ
  Vol_63D : ℚ
  Cumulative : ℚ
  Peak : ℚ
  Drawdown : ℚ
deriving DecidableEq, Inhabited

/-- Column `df['Returns'] = df['Price'].pct_change()`. -/
def returnsCol (data : List (ℚ × ℚ)) : List (Option ℚ) :=
  pctChange (data.map Prod.fst)

/-- Column `df['Rate_Change'] = df['Rate'].pct_change()`. -/
def rateChangeCol (data : List (ℚ × ℚ)) : List (Option ℚ) :=
  pctChange (data.map Prod.snd)

/-- Column `df['Vol_21D'] = df['Returns'].rolling(21).std() * np.sqrt(252)`. -/
def vol21Col (sq : ℚ → ℚ) (data : List (ℚ × ℚ)) : List (Option ℚ) :=
  omapC (fun s => s * sq 252) (rollingApply 21 (fun ws => sq (sampleVar ws)) (returnsCol data))

/-- Column `df['Vol_63D'] = df['Returns'].rolling(63).std() * np.sqrt(252)`. -/
def vol63Col (sq : ℚ → ℚ) (data : List (ℚ × ℚ)) : List (Option ℚ) :=
  omapC (fun s => s * sq 252) (rollingApply 63 (fun ws => sq (sampleVar ws)) (returnsCol data))

/-- Column `df['Cumulative'] = (1 + df['Returns']).cumprod()`. -/
def cumulativeCol (data : List (ℚ × ℚ)) : List (Option ℚ) :=
  cumprodSkipna (omapC (fun r => 1 + r) (returnsCol data))

/-- Column `df['Peak'] = df['Cumulative'].cummax()`. -/
def peakCol (data : List (ℚ × ℚ)) : List (Option ℚ) :=
  cummaxSkipna (cumulativeCol data)

/-- Column `df['Drawdown'] = (df['Cumulative'] - df['Peak']) / df['Peak']`. -/
def drawdownCol (data : List (ℚ × ℚ)) : List (Option ℚ) :=
  omap2 (fun d p => d / p) (omap2 (fun c p => c - p) (cumulativeCol data) (peakCol data)) (peakCol data)

/-- `calculate_returns(data)`: derive all columns, then `df.dropna()`,
which keeps exactly the rows where every column is non-NaN. -/
def calculate_returns (sq : ℚ → ℚ) (data : List (ℚ × ℚ)) : List DRow :=
  (List.range data.length).filterMap (fun i =>
    match (data.map Prod.fst)[i]?, (data.map Prod.snd)[i]?,
        ((returnsCol data)[i]?).join, ((rateChangeCol data)[i]?).join,
        ((vol21Col sq data)[i]?).join, ((vol63Col sq data)[i]?).join,
        ((cumulativeCol data)[i]?).join, ((peakCol data)[i]?).join,
        ((drawdownCol data)[i]?).join with
    | some pr, some ra, some r, some rc, some v21, some v63, some c, some pk, some dd =>
      some ⟨pr, ra, r, rc, v21, v63, c, pk, dd⟩
    | _, _, _, _, _, _, _, _, _ => none)

/-- A row of the table returned by `momentum_strategy`: the untouched
input row plus the three added columns (`Momentum` and
`Strategy_Return` may be NaN, `np.where` makes `Signal` always 0/1). -/
structure SRow where
  base : DRow
  Momentum : Option ℚ
  Signal : ℚ
  Strategy_Return : Option ℚ
deriving DecidableEq, Inhabited

/-- Column `d['Momentum'] = d['Returns'].rolling(lookback).mean()`. -/
def momentumCol (df : List DRow) (lookback : ℕ) : List (Option ℚ) :=
  rollingApply lookback meanQ ((df.map DRow.Returns).map some)

/-- Column `d['Signal'] = np.where(d['Momentum'] > 0, 1, 0)`; the NaN
comparison `NaN > 0` is False, so NaN momentum yields signal 0. -/
def signalCol (df : List DRow) (lookback : ℕ) : List ℚ :=
  (momentumCol df lookback).map (fun m =>
    match m with
    | some x => if 0 < x then 1 else 0
    | none => 0)

/-- `Series.shift(1)`: NaN at row 0, previous entry afterwards. -/
def shiftOne (xs : List ℚ) : List (Option ℚ) :=
  colOf xs.length (fun i =>
    match i with
    | 0 => none
    | Nat.succ j => some (xs.getD j 0))

/-- Column `d['Strategy_Return'] = d['Signal'].shift(1) * d['Returns']`. -/
def strategyReturnCol (df : List DRow) (lookback : ℕ) : List (Option ℚ) :=
  omap2 (fun s r => s * r) (shiftOne (signalCol df lookback)) ((df.map DRow.Returns).map some)

/-- `momentum_strategy(df, lookback)`: copy the frame, add the three
columns, return it.  There is no `dropna` here: every input row is
kept. -/
def momentum_strategy (df : List DRow) (lookback : ℕ) : List SRow :=
  colOf df.length (fun i =>
    ⟨df.getD i default,
     (momentumCol df lookback).getD i none,
     (signalCol df lookback).getD i 0,
     (strategyReturnCol df lookback).getD i none⟩)

/-- The class of an IEEE-754 double as far as the metrics code can
observe it: an exact rational, NaN, or a signed infinity. -/
inductive EF where
  | num (q : ℚ)
  | nan
  | pinf
  | ninf
deriving DecidableEq

/-- `Series.dropna()`: keep the non-NaN entries, in order. -/
def dropnaQ (xs : List (Option ℚ)) : List ℚ :=
  xs.filterMap id

/-- `Series.std()` (sample standard deviation, `ddof=1`): NaN on zero
or one observation, otherwise the square root of the sample variance. -/
def stdQ (sq : ℚ → ℚ) (xs : List ℚ) : EF :=
  if xs.length ≤ 1 then .nan else .num (sq (sampleVar xs))

/-- Numpy float division of a finite numerator by a possibly
degenerate denominator: `a / 0` is NaN when `a = 0` and a signed
infinity otherwise; `a / NaN` is NaN; `a / ±inf` is 0. -/
def efDivNum (a : ℚ) : EF → EF
  | .num b => if b = 0 then (if a = 0 then .nan else if 0 < a then .pinf else .ninf) else .num (a / b)
  | .nan => .nan
  | .pinf => .num 0
  | .ninf => .num 0

/-- Multiplication of a possibly degenerate float by a finite scalar
(`±inf * 0` is NaN, `NaN * c` is NaN). -/
def EF.mulConst : EF → ℚ → EF
  | .num a, c => .num (a * c)
  | .nan, _ => .nan
  | .pinf, c => if 0 < c then .pinf else if c < 0 then .ninf else .nan
  | .ninf, c => if 0 < c then .ninf else if c < 0 then .pinf else .nan

/-- The Python comparison `x > 0` on a float: False for NaN. -/
def EF.posB : EF → Bool
  | .num a => decide (0 < a)
  | .pinf => true
  | _ => false

/-- Result of a Python function that can raise. -/
inductive PyResult (α : Type) where
  | ok (val : α)
  | raised (msg : String)
deriving DecidableEq

/-- Map over the normal result. -/
def PyResult.map {α β : Type} (f : α → β) : PyResult α → PyResult β
  | .ok a => .ok (f a)
  | .raised m => .raised m

/-- `Series.cumprod()` on a NaN-free stream. -/
def cumprodQ (xs : List ℚ) : List ℚ :=
  colOf xs.length (fun i => (xs.take (i + 1)).prod)

/-- `Series.cummax()` on a NaN-free stream. -/
def cummaxQ (xs : List ℚ) : List ℚ :=
  colOf xs.length (fun i =>
    match (xs.take (i + 1)) with
    | [] => 0
    | y :: ys => ys.foldl max y)

/-- `Series.min()` on a NaN-free nonempty stream (0 for the empty
stream, a case `performance_metrics` never reaches). -/
def minQ : List ℚ → ℚ
  | [] => 0
  | y :: ys => ys.foldl min y

/-- The six scalars computed by `performance_metrics`. -/
structure Metrics where
  cagr : ℚ
  vol : EF
  sharpe : EF
  sortino : EF
  max_dd : ℚ
  win_rate : ℚ
deriving DecidableEq

/-- `performance_metrics(returns)`.  The code first drops NaN, then
evaluates `(1 + returns).prod() ** (252 / len(returns)) - 1`; with no
observations the integer division `252 / 0` raises a
`ZeroDivisionError` (there is no guard in the source), which the
embedding surfaces as the raised result.  `rpow` stands for the float
power `x ** e`. -/
def performance_metrics (sq : ℚ → ℚ) (rpow : ℚ → ℚ → ℚ)
    (returns0 : List (Option ℚ)) : PyResult Metrics :=
  let returns := dropnaQ returns0
  let n := returns.length
  if n = 0 then .raised "ZeroDivisionError" else
  let downside : EF := (stdQ sq (returns.filter (fun r => r < 0))).mulConst (sq 252)
  let cp := cumprodQ (returns.map (fun r => 1 + r))
  .ok
    { cagr := rpow ((returns.map (fun r => 1 + r)).prod) (252 / (n : ℚ)) - 1
      vol := (stdQ sq returns).mulConst (sq 252)
      sharpe := (efDivNum (meanQ returns) (stdQ sq returns)).mulConst (sq 252)
      sortino := if downside.posB then efDivNum (meanQ returns * 252) downside else .num 0
      max_dd := minQ (List.zipWith (fun c m => c / m - 1) cp (cummaxQ cp))
      win_rate := ((returns.filter (fun r => 0 < r)).length : ℚ) / (n : ℚ) }

/-- Linear interpolation at fractional position `h` over the order
statistics of a sorted list: the value between the `⌊h⌋`-th and the
next entry (the index clamped at the end), weighted by the fractional
part of `h`. -/
def interpAt (s : List ℚ) (h : ℚ) : ℚ :=
  let k : ℕ := (Rat.floor h).toNat
  let lo := s.getD k 0
  let hi := s.getD (min (k + 1) (s.length - 1)) 0
  lo + (h - (k : ℚ)) * (hi - lo)

/-- The linear-interpolation quantile used by
`Series.rolling(w).quantile(q)` (the pandas default interpolation):
sort the window, take `h = q * (n - 1)`, and interpolate between the
neighbouring order statistics. -/
def quantileLinear (q : ℚ) (ys : List ℚ) : ℚ :=
  let s := List.insertionSort (fun a b => a ≤ b) ys
  interpAt s (q * ((s.length : ℚ) - 1))

/-- `rolling_var(returns, window, confidence) =
returns.rolling(window).quantile(1 - confidence)`. -/
def rolling_var (returns : List ℚ) (window : ℕ) (confidence : ℚ) : List (Option ℚ) :=
  rollingApply window (quantileLinear (1 - confidence)) (returns.map some)

/-- The global numpy RNG state: which seed the stream was produced
from, and how far into that stream consumption has advanced. -/
structure RandomState where
  seed : ℕ
  pos : ℕ
deriving DecidableEq

/-- `monte_carlo(mu, sigma, sims)`.  The code begins with
`np.random.seed(42)`, so the incoming global RNG state is discarded
and replaced by the fixed state (42, 0); `gauss` is the sampler
mapping (seed, stream position) to a normal draw with the requested
mean `mu` and the stressed scale `sigma * 3`.  Each of the `sims` rows
is `100 * np.cumprod(1 + draws)` over 252 steps. -/
def monte_carlo (gauss : ℕ → ℕ → ℚ) (mu sigma : ℚ) (sims : ℕ)
    (st : RandomState) : List (List ℚ) × RandomState :=
  let st1 : RandomState := ⟨42, 0⟩
  let sims_data := colOf sims (fun i =>
    colOf 252 (fun j => mu + sigma * 3 * gauss st1.seed (st1.pos + (i * 252 + j))))
  let paths := sims_data.map (fun row =>
    (cumprodQ (row.map (fun x => 1 + x))).map (fun c => 100 * c))
  (paths, ⟨st1.seed, st1.pos + sims * 252⟩)

lemma colOf_length {α : Type} (n : ℕ) (f : ℕ → α) : (colOf n f).length = n := by
  simp [colOf]

lemma colOf_getElem? {α : Type} (n : ℕ) (f : ℕ → α) (i : ℕ) :
    (colOf n f)[i]? = if i < n then some (f i) else none := by
  by_cases h : i < n
  · simp [colOf, List.getElem?_map, List.getElem?_range h, h]
  · rw [if_neg h]
    exact List.getElem?_eq_none (by simpa [colOf_length] using Nat.le_of_not_lt h)

lemma colOf_getD {α : Type} (n : ℕ) (f : ℕ → α) (i : ℕ) (d : α) (h : i < n) :
    (colOf n f).getD i d = f i := by
  rw [List.getD_eq_getElem?_getD, colOf_getElem?, if_pos h]
  rfl

lemma mem_colOf {α : Type} {n : ℕ} {f : ℕ → α} {a : α} :
    a ∈ colOf n f ↔ ∃ i, i < n ∧ f i = a := by
  simp [colOf, List.mem_map, List.mem_range]

lemma getD_of_getElem? {α : Type} {xs : List α} {i : ℕ} {o : α} (d : α)
    (h : xs[i]? = some o) : xs.getD i d = o := by
  rw [List.getD_eq_getElem?_getD, h]
  rfl

lemma getElem?_of_getD {α : Type} {xs : List α} {i : ℕ} (d : α)
    (h : i < xs.length) : xs[i]? = some (xs.getD i d) := by
  rw [List.getD_eq_getElem, List.getElem?_eq_getElem h]

lemma seqOpt_length {xs : List (Option ℚ)} {ys : List ℚ}
    (h : seqOpt xs = some ys) : ys.length = xs.length := by
  induction xs generalizing ys with
  | nil => simp [seqOpt] at h; simp [← h]
  | cons o tl ih =>
    match o with
    | none => simp [seqOpt] at h
    | some x =>
      simp only [seqOpt, Option.map_eq_some'] at h
      obtain ⟨zs, hz, hys⟩ := h
      simp [← hys, ih hz]

lemma prodSomes_pos {xs : List (Option ℚ)} (h : ∀ x : ℚ, some x ∈ xs → 0 < x) :
    0 < prodSomes xs := by
  induction xs with
  | nil => simp [prodSomes]
  | cons o tl ih =>
    match o with
    | none =>
      simp only [prodSomes]
      exact ih (fun x hx => h x (List.mem_cons_of_mem _ hx))
    | some x =>
      simp only [prodSomes]
      exact mul_pos (h x (List.mem_cons_self _ _))
        (ih (fun y hy => h y (List.mem_cons_of_mem _ hy)))

lemma maxSomes_ge {xs : List (Option ℚ)} {c : ℚ} (h : some c ∈ xs) :
    ∃ m, maxSomes xs = some m ∧ c ≤ m := by
  induction xs with
  | nil => simp at h
  | cons o tl ih =>
    match o with
    | none =>
      rcases List.mem_cons.mp h with h0 | htl
      · exact absurd h0 (by simp)
      · obtain ⟨m, hm, hle⟩ := ih htl
        exact ⟨m, by simpa [maxSomes] using hm, hle⟩
    | some x =>
      rcases List.mem_cons.mp h with h0 | htl
      · have hx : x = c := by simpa using h0.symm
        subst hx
        match hmt : maxSomes tl with
        | none => exact ⟨x, by simp [maxSomes, hmt], le_refl x⟩
        | some m => exact ⟨max x m, by simp [maxSomes, hmt], le_max_left x m⟩
      · obtain ⟨m, hm, hle⟩ := ih htl
        exact ⟨max x m, by simp [maxSomes, hm], le_trans hle (le_max_right x m)⟩

lemma maxSomes_mem {xs : List (Option ℚ)} {m : ℚ} (h : maxSomes xs = some m) :
    some m ∈ xs := by
  induction xs with
  | nil => simp [maxSomes] at h
  | cons o tl ih =>
    match o with
    | none =>
      simp only [maxSomes] at h
      exact List.mem_cons_of_mem _ (ih h)
    | some x =>
      simp only [maxSomes, Option.some.injEq] at h
      match hmt : maxSomes tl with
      | none =>
        rw [hmt] at h
        simp only at h
        simp [← h]
      | some m0 =>
        rw [hmt] at h
        simp only at h
        rcases max_cases x m0 with ⟨he, _⟩ | ⟨he, _⟩
        · rw [he] at h; simp [← h]
        · rw [he] at h
          subst h
          exact List.mem_cons_of_mem _ (ih hmt)

lemma pctChange_length (xs : List ℚ) : (pctChange xs).length = xs.length :=
  colOf_length _ _

lemma returnsCol_length (data : List (ℚ × ℚ)) :
    (returnsCol data).length = data.length := by
  simp [returnsCol, pctChange_length]

lemma omapC_length (f : ℚ → ℚ) (xs : List (Option ℚ)) :
    (omapC f xs).length = xs.length := by
  simp [omapC]

lemma cumulativeCol_length (data : List (ℚ × ℚ)) :
    (cumulativeCol data).length = data.length := by
  simp [cumulativeCol, cumprodSkipna, colOf_length, omapC_length, returnsCol_length]

lemma peakCol_length (data : List (ℚ × ℚ)) :
    (peakCol data).length = data.length := by
  simp [peakCol, cummaxSkipna, colOf_length, cumulativeCol_length]

lemma drawdownCol_length (data : List (ℚ × ℚ)) :
    (drawdownCol data).length = data.length := by
  simp [drawdownCol, omap2, colOf_length, cumulativeCol_length, peakCol_length]

/-- Unpack membership in the `dropna`-filtered output of
`calculate_returns` into the per-index facts about the three columns
the drawdown claims are about. -/
lemma mem_calculate_returns {sq : ℚ → ℚ} {data : List (ℚ × ℚ)} {r : DRow}
    (hr : r ∈ calculate_returns sq data) :
    ∃ i, i < data.length ∧
      (cumulativeCol data)[i]? = some (some r.Cumulative) ∧
      (peakCol data)[i]? = some (some r.Peak) ∧
      (drawdownCol data)[i]? = some (some r.Drawdown) := by
  simp only [calculate_returns, List.mem_filterMap, List.mem_range] at hr
  obtain ⟨i, hi, hrow⟩ := hr
  refine ⟨i, hi, ?_⟩
  split at hrow
  case h_2 => exact absurd hrow (by simp)
  case h_1 pr ra r1 rc v21 v63 c pk dd hpr hra hr1 hrc hv21 hv63 hc hpk hdd =>
    rw [Option.some.injEq] at hrow
    rw [Option.join_eq_some] at hc hpk hdd
    rw [← hrow]
    exact ⟨hc, hpk, hdd⟩

/-- With positive prices, every defined entry of
`(1 + df['Returns'])` is positive (it equals `price[i] / price[i-1]`). -/
lemma one_add_returns_pos {data : List (ℚ × ℚ)} (hpos : ∀ p ∈ data, 0 < p.1) :
    ∀ x : ℚ, some x ∈ omapC (fun r => 1 + r) (returnsCol data) → 0 < x := by
  intro x hx
  simp only [omapC, List.mem_map] at hx
  obtain ⟨o, ho, hmap⟩ := hx
  rcases o with _ | rr
  · simp at hmap
  · simp only [Option.map_some', Option.some.injEq] at hmap
    simp only [returnsCol, pctChange, mem_colOf] at ho
    obtain ⟨i, hi, hfi⟩ := ho
    match i with
    | 0 => simp at hfi
    | Nat.succ j =>
      simp only [Option.some.injEq] at hfi
      rw [List.length_map] at hi
      have hj : j < data.length := Nat.lt_of_succ_lt hi
      have hja : (data.map Prod.fst).getD j 0 ∈ data.map Prod.fst := by
        rw [List.getD_eq_getElem _ _ (by simpa using hj)]
        exact List.getElem_mem _
      have hjb : (data.map Prod.fst).getD (j + 1) 0 ∈ data.map Prod.fst := by
        rw [List.getD_eq_getElem _ _ (by simpa using hi)]
        exact List.getElem_mem _
      have ha : 0 < (data.map Prod.fst).getD j 0 := by
        obtain ⟨p, hp, he⟩ := List.mem_map.mp hja
        exact he ▸ hpos p hp
      have hb : 0 < (data.map Prod.fst).getD (j + 1) 0 := by
        obtain ⟨p, hp, he⟩ := List.mem_map.mp hjb
        exact he ▸ hpos p hp
      rw [← hmap, ← hfi]
      generalize hadef : (data.map Prod.fst).getD j 0 = a at ha hfi
      generalize hbdef : (data.map Prod.fst).getD (j + 1) 0 = b at hb hfi
      have ha0 : a ≠ 0 := ne_of_gt ha
      have key : (1 : ℚ) + (b - a) / a = b / a := by
        field_simp
      rw [key]
      exact div_pos hb ha

/-- With positive prices, every defined entry of the `Cumulative`
column is positive. -/
lemma cumulativeCol_pos {data : List (ℚ × ℚ)} (hpos : ∀ p ∈ data, 0 < p.1) :
    ∀ x : ℚ, some x ∈ cumulativeCol data → 0 < x := by
  intro x hx
  simp only [cumulativeCol, cumprodSkipna, mem_colOf] at hx
  obtain ⟨i, hi, hfi⟩ := hx
  rcases hmatch : (omapC (fun r => 1 + r) (returnsCol data)).getD i none with _ | y
  · rw [hmatch] at hfi; simp at hfi
  · rw [hmatch] at hfi
    simp only [Option.map_some', Option.some.injEq] at hfi
    rw [← hfi]
    exact prodSomes_pos (fun z hz =>
      one_add_returns_pos hpos z (List.mem_of_mem_take hz))

lemma peak_facts {sq : ℚ → ℚ} {data : List (ℚ × ℚ)} {r : DRow}
    (hpos : ∀ p ∈ data, 0 < p.1) (hr : r ∈ calculate_returns sq data) :
    r.Drawdown = (r.Cumulative - r.Peak) / r.Peak ∧ r.Cumulative ≤ r.Peak ∧ 0 < r.Peak := by
  obtain ⟨i, hi, hc, hp, hd⟩ := mem_calculate_returns hr
  have hin : i < (cumulativeCol data).length := by rwa [cumulativeCol_length]
  -- the cummax entry is the max of the prefix of the cumulative column
  have hpeak : maxSomes ((cumulativeCol data).take (i + 1)) = some r.Peak := by
    have := hp
    rw [peakCol, cummaxSkipna, colOf_getElem?, if_pos hin, Option.some.injEq] at this
    rw [getD_of_getElem? none hc] at this
    simpa using this
  -- the cumulative entry belongs to that prefix
  have hmemtake : some r.Cumulative ∈ (cumulativeCol data).take (i + 1) := by
    apply List.getElem?_mem (n := i)
    rw [List.getElem?_take, if_pos (Nat.lt_succ_self i)]
    exact hc
  have hle : r.Cumulative ≤ r.Peak := by
    obtain ⟨m, hm, hcm⟩ := maxSomes_ge hmemtake
    rw [hpeak, Option.some.injEq] at hm
    exact hm ▸ hcm
  have hppos : 0 < r.Peak :=
    cumulativeCol_pos hpos _ (List.mem_of_mem_take (maxSomes_mem hpeak))
  -- unfold the drawdown entry
  have hsub : (omap2 (fun c p => c - p) (cumulativeCol data) (peakCol data)).getD i none
      = some (r.Cumulative - r.Peak) := by
    apply getD_of_getElem?
    rw [omap2, colOf_getElem?, if_pos (by simp [cumulativeCol_length, peakCol_length, hi]),
      getD_of_getElem? none hc, getD_of_getElem? none hp]
  have hdd : r.Drawdown = (r.Cumulative - r.Peak) / r.Peak := by
    have := hd
    rw [drawdownCol, omap2, colOf_getElem?, if_pos (by
      simp only [colOf_length, omap2, peakCol_length, cumulativeCol_length]
      omega), hsub, getD_of_getElem? none hp] at this
    simpa using this.symm
  exact ⟨hdd, hle, hppos⟩

lemma momentumCol_length (df : List DRow) (lb : ℕ) :
    (momentumCol df lb).length = df.length := by
  simp [momentumCol, rollingApply, colOf_length]

lemma signalCol_length (df : List DRow) (lb : ℕ) :
    (signalCol df lb).length = df.length := by
  simp [signalCol, momentumCol_length]

lemma shiftOne_length (xs : List ℚ) : (shiftOne xs).length = xs.length :=
  colOf_length _ _

lemma momentum_strategy_getD (df : List DRow) (lb : ℕ) (i : ℕ) (h : i < df.length) :
    (momentum_strategy df lb).getD i default =
      ⟨df.getD i default, (momentumCol df lb).getD i none,
       (signalCol df lb).getD i 0, (strategyReturnCol df lb).getD i none⟩ :=
  colOf_getD _ _ _ _ h

lemma returns_map_some_getD (df : List DRow) (i : ℕ) (h : i < df.length) :
    ((df.map DRow.Returns).map some).getD i none = some ((df.getD i default).Returns) := by
  apply getD_of_getElem?
  rw [List.getElem?_map, List.getElem?_map, List.getElem?_eq_getElem h,
    List.getD_eq_getElem _ _ h]
  rfl

lemma strategyReturnCol_getD (df : List DRow) (lb : ℕ) (i : ℕ) (h : i + 1 < df.length) :
    (strategyReturnCol df lb).getD (i + 1) none =
      some ((signalCol df lb).getD i 0 * (df.getD (i + 1) default).Returns) := by
  have hb1 : i + 1 < min (shiftOne (signalCol df lb)).length
      ((df.map DRow.Returns).map some).length := by
    simp only [shiftOne_length, signalCol_length, List.length_map]
    omega
  have hb2 : i + 1 < (signalCol df lb).length := by
    rw [signalCol_length]
    omega
  rw [strategyReturnCol, omap2, colOf_getD _ _ _ _ hb1, shiftOne, colOf_getD _ _ _ _ hb2,
    returns_map_some_getD df (i + 1) h]

lemma strategyReturnCol_getD_zero (df : List DRow) (lb : ℕ) (h : 0 < df.length) :
    (strategyReturnCol df lb).getD 0 none = none := by
  have hb1 : 0 < min (shiftOne (signalCol df lb)).length
      ((df.map DRow.Returns).map some).length := by
    simp only [shiftOne_length, signalCol_length, List.length_map]
    omega
  have hb2 : 0 < (signalCol df lb).length := by
    rw [signalCol_length]
    omega
  rw [strategyReturnCol, omap2, colOf_getD _ _ _ _ hb1, shiftOne, colOf_getD _ _ _ _ hb2]

/-- Claim C1: in the table produced by the momentum overlay, the
strategy return of each row after the first equals the signal
(position) of the PREVIOUS row times the return of the CURRENT row —
the one-period lag; the current row's position does not enter. -/
theorem C1_strategy_return_lagged (df : List DRow) (lookback : ℕ) (i : ℕ)
    (h : i + 1 < df.length) :
    ((momentum_strategy df lookback).getD (i + 1) default).Strategy_Return =
      some (((momentum_strategy df lookback).getD i default).Signal *
        ((momentum_strategy df lookback).getD (i + 1) default).base.Returns) := by
  rw [momentum_strategy_getD df lookback (i + 1) h,
    momentum_strategy_getD df lookback i (Nat.lt_of_succ_lt h)]
  exact strategyReturnCol_getD df lookback i h

/-- Claim C5: every row retained by `calculate_returns` (on positive
price data) has a nonpositive drawdown, with equality exactly when the
cumulative growth index sits at its running maximum. -/
theorem C5_drawdown_nonpos (sq : ℚ → ℚ) (data : List (ℚ × ℚ))
    (hpos : ∀ p ∈ data, 0 < p.1) (r : DRow) (hr : r ∈ calculate_returns sq data) :
    r.Drawdown ≤ 0 ∧ (r.Drawdown = 0 ↔ r.Cumulative = r.Peak) := by
  obtain ⟨hdd, hle, hp⟩ := peak_facts hpos hr
  constructor
  · rw [hdd]
    exact div_nonpos_iff.mpr (Or.inr ⟨sub_nonpos.mpr hle, le_of_lt hp⟩)
  · rw [hdd, div_eq_zero_iff, sub_eq_zero]
    constructor
    · rintro (h | h)
      · exact h
      · exact absurd h (ne_of_gt hp)
    · exact fun h => Or.inl h

/-- Claim C6 (amended): `momentum_strategy` keeps every input row.
Row 0 is retained with an undefined (NaN) strategy return; nothing is
dropped by the overlay (the NaN rows only disappear later, inside
`performance_metrics`, which begins with `dropna`). -/
theorem C6_amended_rows_retained (df : List DRow) (lookback : ℕ) (h : df ≠ []) :
    (momentum_strategy df lookback).length = df.length ∧
      ((momentum_strategy df lookback).getD 0 default).Strategy_Return = none := by
  have h0 : 0 < df.length := List.length_pos.mpr h
  refine ⟨colOf_length _ _, ?_⟩
  rw [momentum_strategy_getD df lookback 0 h0]
  exact strategyReturnCol_getD_zero df lookback h0

/-- Claim C9: the momentum overlay is frame-preserving — the output
has exactly the rows of the input, each input row is carried unchanged
in the `base` component (all nine pre-existing columns), and only the
three new columns are added (by the very shape of `SRow`). -/
theorem C9_frame_preserving (df : List DRow) (lookback : ℕ) (i : ℕ)
    (h : i < df.length) :
    (momentum_strategy df lookback).length = df.length ∧
      ((momentum_strategy df lookback).getD i default).base = df.getD i default :=
  ⟨colOf_length _ _, by rw [momentum_strategy_getD df lookback i h]⟩

/-- Claim C8: `monte_carlo` reseeds the global RNG with the constant
42 before drawing, so the returned path matrix is independent of the
incoming RNG state: two invocations with identical (mean, volatility,
path count) produce identical path matrices. -/
theorem C8_monte_carlo_deterministic (gauss : ℕ → ℕ → ℚ) (mu sigma : ℚ)
    (sims : ℕ) (s1 s2 : RandomState) :
    (monte_carlo gauss mu sigma sims s1).1 = (monte_carlo gauss mu sigma sims s2).1 :=
  rfl

/-- Claim C3 (code bug): `performance_metrics` does NOT guard the
empty stream; it evaluates `252 / len(returns)` with `len = 0`, which
raises `ZeroDivisionError` instead of signalling insufficient data. -/
theorem C3_empty_stream_raises (sq : ℚ → ℚ) (rpow : ℚ → ℚ → ℚ) :
    performance_metrics sq rpow [] = .raised "ZeroDivisionError" :=
  rfl

/-- Claim C10: `performance_metrics` returns Sortino = 0 whenever the
stream holds at most one negative return: the downside standard
deviation is then NaN (std of zero or one observations), the Python
comparison `downside > 0` is False, and the explicit 0 fallback fires. -/
theorem C10_sortino_zero (sq : ℚ → ℚ) (rpow : ℚ → ℚ → ℚ) (input : List (Option ℚ))
    (h1 : dropnaQ input ≠ [])
    (h2 : ((dropnaQ input).filter (fun r => r < 0)).length ≤ 1) :
    PyResult.map Metrics.sortino (performance_metrics sq rpow input) = .ok (.num 0) := by
  have hn : ¬(dropnaQ input).length = 0 := by
    simpa [List.length_eq_zero] using h1
  simp only [performance_metrics]
  rw [if_neg hn]
  simp only [PyResult.map]
  have hd : stdQ sq ((dropnaQ input).filter (fun r => r < 0)) = .nan := by
    rw [stdQ, if_pos h2]
  simp [hd, EF.mulConst, EF.posB]

/-- Claim C4 (amended): on a return stream whose standard deviation is
exactly zero (at least two observations, all equal), the Sharpe ratio
is NOT 0 or an explicit signal: it is a silently propagated degenerate
float — NaN when the mean is 0 (the 0/0 case), +inf when the mean is
positive, -inf when it is negative. -/
theorem C4_amended_sharpe_degenerate (sq : ℚ → ℚ) (rpow : ℚ → ℚ → ℚ)
    (input : List (Option ℚ)) (h2 : 2 ≤ (dropnaQ input).length)
    (hv : sampleVar (dropnaQ input) = 0) (hsq0 : sq 0 = 0) (hsq252 : 0 < sq 252) :
    PyResult.map Metrics.sharpe (performance_metrics sq rpow input) =
      .ok (if 0 < meanQ (dropnaQ input) then EF.pinf
           else if meanQ (dropnaQ input) < 0 then EF.ninf else EF.nan) := by
  have hn : ¬(dropnaQ input).length = 0 := by omega
  simp only [performance_metrics]
  rw [if_neg hn]
  simp only [PyResult.map]
  have hstd : stdQ sq (dropnaQ input) = .num 0 := by
    rw [stdQ, if_neg (by omega), hv, hsq0]
  rw [hstd]
  rcases lt_trichotomy (meanQ (dropnaQ input)) 0 with hm | hm | hm
  · rw [if_neg (asymm hm), if_pos hm]
    simp [efDivNum, ne_of_lt hm, asymm hm, EF.mulConst, hsq252]
  · rw [if_neg (by rw [hm]; exact lt_irrefl 0), if_neg (by rw [hm]; exact lt_irrefl 0)]
    simp [efDivNum, hm, EF.mulConst]
  · rw [if_pos hm]
    simp [efDivNum, ne_of_gt hm, hm, EF.mulConst, hsq252]

lemma ratFloor_eq (q : ℚ) : Rat.floor q = ⌊q⌋ := by
  rw [Rat.floor_def', Rat.floor_def]

lemma sorted_getD_mono {s : List ℚ} (hs : List.Sorted (fun a b => a ≤ b) s) {i j : ℕ}
    (hij : i ≤ j) (hj : j < s.length) : s.getD i 0 ≤ s.getD j 0 := by
  rcases Nat.eq_or_lt_of_le hij with rfl | hlt
  · exact le_refl _
  · have hi : i < s.length := lt_trans hlt hj
    rw [List.getD_eq_getElem _ _ hi, List.getD_eq_getElem _ _ hj]
    have := hs.rel_get_of_lt (a := ⟨i, hi⟩) (b := ⟨j, hj⟩) (Fin.mk_lt_mk.mpr hlt)
    simpa using this

lemma interp_mono (s : List ℚ) (hs : List.Sorted (fun a b => a ≤ b) s) (hne : s ≠ [])
    {h1 h2 : ℚ} (hh0 : 0 ≤ h1) (hh12 : h1 ≤ h2) (hh2 : h2 ≤ (s.length : ℚ) - 1) :
    interpAt s h1 ≤ interpAt s h2 := by
  have hlen1 : 1 ≤ s.length := List.length_pos.mpr hne
  have hh02 : 0 ≤ h2 := le_trans hh0 hh12
  have hf1 : (0 : ℤ) ≤ ⌊h1⌋ := Int.floor_nonneg.mpr hh0
  have hf2 : (0 : ℤ) ≤ ⌊h2⌋ := Int.floor_nonneg.mpr hh02
  simp only [interpAt]
  set k1 := (Rat.floor h1).toNat with hk1def
  set k2 := (Rat.floor h2).toNat with hk2def
  rw [ratFloor_eq] at hk1def hk2def
  have hk1q : ((k1 : ℕ) : ℚ) = ((⌊h1⌋ : ℤ) : ℚ) := by
    rw [hk1def]
    exact_mod_cast Int.toNat_of_nonneg hf1
  have hk2q : ((k2 : ℕ) : ℚ) = ((⌊h2⌋ : ℤ) : ℚ) := by
    rw [hk2def]
    exact_mod_cast Int.toNat_of_nonneg hf2
  have hlo1 : (k1 : ℚ) ≤ h1 := by rw [hk1q]; exact Int.floor_le h1
  have hhi1 : h1 < (k1 : ℚ) + 1 := by rw [hk1q]; exact Int.lt_floor_add_one h1
  have hlo2 : (k2 : ℚ) ≤ h2 := by rw [hk2q]; exact Int.floor_le h2
  have hk12 : k1 ≤ k2 := by
    rw [hk1def, hk2def]
    exact Int.toNat_le_toNat (Int.floor_le_floor hh12)
  have hcast : ((s.length - 1 : ℕ) : ℚ) = (s.length : ℚ) - 1 := by
    push_cast [Nat.cast_sub hlen1]
    ring
  have hfn : ⌊h2⌋ ≤ ((s.length - 1 : ℕ) : ℤ) := by
    have hfl := Int.floor_le_floor hh2
    rwa [← hcast, Int.floor_natCast] at hfl
  have hk2n : k2 ≤ s.length - 1 := by omega
  have hk1n : k1 ≤ s.length - 1 := le_trans hk12 hk2n
  have hlohi1 : s.getD k1 0 ≤ s.getD (min (k1 + 1) (s.length - 1)) 0 :=
    sorted_getD_mono hs (by omega) (by omega)
  have hlohi2 : s.getD k2 0 ≤ s.getD (min (k2 + 1) (s.length - 1)) 0 :=
    sorted_getD_mono hs (by omega) (by omega)
  have hgap1 : (0 : ℚ) ≤ s.getD (min (k1 + 1) (s.length - 1)) 0 - s.getD k1 0 :=
    sub_nonneg.mpr hlohi1
  have hgap2 : (0 : ℚ) ≤ s.getD (min (k2 + 1) (s.length - 1)) 0 - s.getD k2 0 :=
    sub_nonneg.mpr hlohi2
  rcases Nat.eq_or_lt_of_le hk12 with heq | hlt
  · rw [heq]
    rw [heq] at hgap1
    have hfrac : h1 - (k2 : ℚ) ≤ h2 - (k2 : ℚ) := by linarith
    have hmul := mul_le_mul_of_nonneg_right hfrac hgap1
    linarith
  · have hfrac1 : 0 ≤ h1 - (k1 : ℚ) := sub_nonneg.mpr hlo1
    have hfrac1' : h1 - (k1 : ℚ) ≤ 1 := by linarith
    have hfrac2 : 0 ≤ h2 - (k2 : ℚ) := sub_nonneg.mpr hlo2
    have hub := mul_le_mul_of_nonneg_right hfrac1' hgap1
    have hlb := mul_nonneg hfrac2 hgap2
    have hmid : s.getD (min (k1 + 1) (s.length - 1)) 0 ≤ s.getD k2 0 :=
      sorted_getD_mono hs (by omega) (by omega)
    linarith

lemma quantileLinear_mono (ys : List ℚ) (q1 q2 : ℚ) (h0 : 0 ≤ q1) (h12 : q1 ≤ q2)
    (h1 : q2 ≤ 1) (hne : ys ≠ []) : quantileLinear q1 ys ≤ quantileLinear q2 ys := by
  simp only [quantileLinear]
  have hlen : (List.insertionSort (fun a b => a ≤ b) ys).length = ys.length :=
    List.length_insertionSort _ ys
  have hsne : List.insertionSort (fun a b => a ≤ b) ys ≠ [] := by
    intro hc
    apply hne
    rw [← List.length_eq_zero, ← hlen, hc]
    rfl
  have hlen1 : 1 ≤ (List.insertionSort (fun a b => a ≤ b) ys).length :=
    List.length_pos.mpr hsne
  have hlc : (1 : ℚ) ≤ ((List.insertionSort (fun a b => a ≤ b) ys).length : ℚ) := by
    exact_mod_cast hlen1
  apply interp_mono _ (List.sorted_insertionSort _ ys) hsne
  · exact mul_nonneg h0 (by linarith)
  · exact mul_le_mul_of_nonneg_right h12 (by linarith)
  · exact mul_le_of_le_one_left (by linarith) h1

/-- Claim C7: for a fixed return stream and fixed window, the rolling
VaR series is antitone in the confidence level — at every row with a
full trailing window, the VaR at the higher confidence is at most the
VaR at the lower confidence (it is a more extreme quantile of the same
sorted window). -/
theorem C7_var_monotone_in_confidence (xs : List ℚ) (w : ℕ) (c1 c2 : ℚ) (i : ℕ)
    (v1 v2 : ℚ) (hw : 1 ≤ w) (hc0 : 0 ≤ c1) (hc12 : c1 < c2) (hc1 : c2 ≤ 1)
    (hv1 : (rolling_var xs w c1)[i]? = some (some v1))
    (hv2 : (rolling_var xs w c2)[i]? = some (some v2)) : v2 ≤ v1 := by
  rw [rolling_var, rollingApply, colOf_getElem?] at hv1 hv2
  rcases Nat.lt_or_ge i (xs.map some).length with hi | hi
  · rw [if_pos hi, Option.some.injEq] at hv1 hv2
    rcases le_or_lt w (i + 1) with hwle | hwgt
    · rw [if_pos hwle] at hv1 hv2
      rcases hseq : seqOpt (((xs.map some).take (i + 1)).drop (i + 1 - w)) with _ | ws
      · rw [hseq] at hv1
        exact absurd hv1 (by simp)
      · rw [hseq] at hv1 hv2
        simp only [Option.map_some', Option.some.injEq] at hv1 hv2
        have hwlen : ws.length = w := by
          have hlen := seqOpt_length hseq
          rw [List.length_drop, List.length_take, List.length_map] at hlen
          rw [List.length_map] at hi
          omega
        have hwne : ws ≠ [] := by
          intro hc
          rw [hc] at hwlen
          simp at hwlen
          omega
        rw [← hv1, ← hv2]
        exact quantileLinear_mono ws (1 - c2) (1 - c1) (by linarith) (by linarith)
          (by linarith) hwne
    · rw [if_neg (not_le.mpr hwgt)] at hv1
      exact absurd hv1 (by simp)
  · rw [if_neg (Nat.not_lt.mpr hi)] at hv1
    exact absurd hv1 (by simp)

/-- A placeholder square root for concrete tables; the claims checked
on these tables never depend on the volatility values, only on which
rows the rolling windows leave defined. -/
def sqZero : ℚ → ℚ := fun _ => 0

/-- A square-root stand-in with the two properties the degenerate
Sharpe analysis needs: zero at zero, positive at 252. -/
def sqW : ℚ → ℚ := fun x => if x ≤ 0 then 0 else 1

/-- A float-power stand-in; no settled claim depends on its value. -/
def rpowW : ℚ → ℚ → ℚ := fun _ _ => 0

/-- The worked example of the spec: price series 100, 102, 101, 105
(rates constant). -/
def ex4 : List (ℚ × ℚ) := [(100, 1), (102, 1), (101, 1), (105, 1)]

/-- 64 rows: the price doubles on day 1 and then stays flat, so the
cumulative index is 2 from row 1 onwards and exactly one row (index
63) survives the 63-day volatility window. -/
def ex64 : List (ℚ × ℚ) := (100, 1) :: (200, 1) :: List.replicate 62 (200, 1)

/-- 64 rows of a constant price, for exercising `calculate_returns`
on data whose output table is nonempty. -/
def w5data : List (ℚ × ℚ) := List.replicate 64 (100, 1)

/-- The single row `calculate_returns` retains from `w5data`. -/
def w5row : DRow := ⟨100, 1, 0, 0, 0, 0, 1, 1, 0⟩

/-- A one-row strategy-input table. -/
def c6df : List DRow := [⟨100, 1, 0, 0, 0, 0, 1, 1, 0⟩]

/-- A two-row strategy-input table with positive returns. -/
def c1df : List DRow :=
  [⟨100, 1, (1 : ℚ)/10, 0, 0, 0, 1, 1, 0⟩, ⟨100, 1, (1 : ℚ)/5, 0, 0, 0, 1, 1, 0⟩]

set_option maxRecDepth 100000

/-- Claim C1 witness: on a concrete two-row table with lookback 1, the
strategy return of row 1 equals signal of row 0 times return of row 1. -/
theorem C1_witness : 0 + 1 < c1df.length ∧
    ((momentum_strategy c1df 1).getD (0 + 1) default).Strategy_Return =
      some (((momentum_strategy c1df 1).getD 0 default).Signal *
        ((momentum_strategy c1df 1).getD (0 + 1) default).base.Returns) :=
  ⟨by decide, C1_strategy_return_lagged c1df 1 0 (by decide)⟩

/-- Claim C2 counterexample: on the 64-row doubling series the first
retained row's cumulative index is 2, not 1.0; and on the worked
example [100, 102, 101, 105] the table produced by `calculate_returns`
is empty, so there is no row carrying the promised 1.05. -/
theorem C2_counterexample :
    ((calculate_returns sqZero ex64).head?.map DRow.Cumulative = some 2 ∧ (2 : ℚ) ≠ 1) ∧
      calculate_returns sqZero ex4 = [] := by decide

/-- Claim C2 (amended): the cumulative index is seeded at the first
return of the raw series, not renormalised at the first retained row:
on [100, 102, 101, 105] the raw `Cumulative` column reads 1.02 at its
first defined row and 1.05 (= 105/100) after the three returns, while
the returned table itself is empty because no row has the 63-day
volatility window. -/
theorem C2_amended_cumulative_seeding :
    (cumulativeCol ex4)[1]? = some (some (51/50)) ∧
      (cumulativeCol ex4)[3]? = some (some (21/20)) ∧
      calculate_returns sqZero ex4 = [] := by decide

/-- Claim C4 counterexample: on the constant zero-return stream the
code's Sharpe ratio is the silently propagated NaN of `0.0 / 0.0`, not
0 and not an explicit signal. -/
theorem C4_counterexample :
    PyResult.map Metrics.sharpe (performance_metrics sqW rpowW [some 0, some 0]) =
      .ok EF.nan ∧ EF.nan ≠ EF.num 0 := by decide

/-- Claim C4 witness: a constant stream of ones has zero variance and
positive mean, and the theorem yields Sharpe = +inf there. -/
theorem C4_witness :
    (2 ≤ (dropnaQ [some 1, some 1]).length ∧ sampleVar (dropnaQ [some 1, some 1]) = 0 ∧
      sqW 0 = 0 ∧ 0 < sqW 252) ∧
    PyResult.map Metrics.sharpe (performance_metrics sqW rpowW [some 1, some 1]) =
      .ok (if 0 < meanQ (dropnaQ [some 1, some 1]) then EF.pinf
           else if meanQ (dropnaQ [some 1, some 1]) < 0 then EF.ninf else EF.nan) :=
  ⟨⟨by decide, by decide, by decide, by decide⟩,
    C4_amended_sharpe_degenerate sqW rpowW _ (by decide) (by decide) (by decide) (by decide)⟩

/-- Claim C5 witness: the one row retained from 64 days of constant
prices has drawdown 0, cumulative = peak = 1. -/
theorem C5_witness :
    w5row.Drawdown ≤ 0 ∧ (w5row.Drawdown = 0 ↔ w5row.Cumulative = w5row.Peak) :=
  C5_drawdown_nonpos sqZero w5data (by decide) w5row (by decide)

/-- Claim C6 counterexample: on a one-row input, `momentum_strategy`
returns one row, and that row's strategy return is the undefined NaN —
the row the claim says is dropped is in fact retained. -/
theorem C6_counterexample :
    (momentum_strategy c6df 2).length = 1 ∧
      ((momentum_strategy c6df 2).getD 0 default).Strategy_Return = none := by decide

/-- Claim C6 amended witness. -/
theorem C6_witness :
    c6df ≠ [] ∧ ((momentum_strategy c6df 5).length = c6df.length ∧
      ((momentum_strategy c6df 5).getD 0 default).Strategy_Return = none) :=
  ⟨by decide, C6_amended_rows_retained c6df 5 (by decide)⟩

/-- Claim C7 witness: on returns [0, 1] with window 2, VaR at
confidence 0.99 (value 0.01) is below VaR at confidence 0.90
(value 0.10). -/
theorem C7_witness :
    ((rolling_var [0, 1] 2 (9/10))[1]? = some (some (1/10)) ∧
      (rolling_var [0, 1] 2 (99/100))[1]? = some (some (1/100))) ∧
    (1 : ℚ)/100 ≤ 1/10 :=
  ⟨⟨by decide, by decide⟩,
    C7_var_monotone_in_confidence [0, 1] 2 (9/10) (99/100) 1 (1/10) (1/100)
      (by decide) (by decide) (by decide) (by decide) (by decide) (by decide)⟩

/-- Claim C9 witness. -/
theorem C9_witness : 0 < c1df.length ∧
    ((momentum_strategy c1df 3).length = c1df.length ∧
      ((momentum_strategy c1df 3).getD 0 default).base = c1df.getD 0 default) :=
  ⟨by decide, C9_frame_preserving c1df 3 0 (by decide)⟩

/-- Claim C10 witness: a stream with exactly one negative return still
gets Sortino = 0. -/
theorem C10_witness :
    (dropnaQ [some (-1/2), some (1/2)] ≠ [] ∧
      ((dropnaQ [some (-1/2), some (1/2)]).filter (fun r => r < 0)).length ≤ 1) ∧
    PyResult.map Metrics.sortino (performance_metrics sqW rpowW [some (-1/2), some (1/2)]) =
      .ok (.num 0) :=
  ⟨⟨by decide, by decide⟩, C10_sortino_zero sqW rpowW _ (by decide) (by decide)⟩
